import Mathlib

/-!
Verification of the transcoding and streaming-pipeline engine of yq
(source file src/yq/__init__.py) against its natural-language
specification. The development shallowly embeds the parts of the source
the claims depend on: the raw position-advancing JSON output decoder
(decode_output_docs), the deferred in-place output stream
(DeferredOutputStream), the fifo-creation helper (mktempfifo), the
input serializer (stream_input_docs), the spawn and post-spawn phases of
the orchestrator (yq), the in-place gate of the cli, the per-document
XML and TOML encoding steps, and the JSONDateTimeEncoder hook.
Machine strings are lists of unicode characters; Python exceptions are
modelled with an explicit error type and Except.
-/

/-! # JSON document values

The JSON-compatible intermediate representation: the documents that flow
between the source-format codec, the filter process and the target
encoders. Maps keep their key order (the source decodes JSON objects with
object_pairs_hook=OrderedDict, src line 218), so an object is a list of
key/value pairs in textual order. Numbers are modelled as integers: no
claim here exercises float or exponent literals.
-/

inductive J where
  | null
  | bool (b : Bool)
  | num (n : Int)
  | str (s : String)
  | arr (elts : List J)
  | obj (entries : List (String × J))

/-- Whitespace as recognized by the Python json scanner (space, tab,
newline, carriage return). -/
def isWS (c : Char) : Bool := c = ' ' || c = '\t' || c = '\n' || c = '\r'

/-- Skip a run of json whitespace characters. -/
def skipWS : List Char → List Char
  | [] => []
  | c :: rest => if isWS c then skipWS rest else c :: rest

/-- Longest digit run at the head of the input, and the remainder. -/
def takeDigits : List Char → List Char × List Char
  | [] => ([], [])
  | c :: rest =>
    if c.isDigit then
      let p := takeDigits rest
      (c :: p.1, p.2)
    else ([], c :: rest)

/-- Numeric value of one decimal digit character. -/
def digitVal (c : Char) : Nat := c.toNat - 48

/-- Numeric value of a decimal digit string. -/
def digitsVal (ds : List Char) : Nat := ds.foldl (fun a c => 10 * a + digitVal c) 0

/-- Backslash escapes accepted by the Python json string scanner
(the unicode escape form with four hex digits is not modelled; no claim
exercises it). -/
def unescapeChar (c : Char) : Option Char :=
  if c = '"' then some '"'
  else if c = '\\' then some '\\'
  else if c = '/' then some '/'
  else if c = 'b' then some (Char.ofNat 8)
  else if c = 'f' then some (Char.ofNat 12)
  else if c = 'n' then some '\n'
  else if c = 'r' then some '\r'
  else if c = 't' then some '\t'
  else none

/-- Scan a json string body (the opening quote already consumed) up to the
closing quote, resolving backslash escapes. Returns the decoded
characters and the input remaining after the closing quote. One fuel unit
is spent per decoded character, so fuel beyond the decoded length is
enough. -/
def parseStringBody : Nat → List Char → Option (List Char × List Char)
  | 0, _ => none
  | _ + 1, [] => none
  | f + 1, c :: rest =>
    if c = '"' then some ([], rest)
    else if c = '\\' then
      match rest with
      | [] => none
      | e :: rest2 =>
        match unescapeChar e with
        | none => none
        | some u =>
          match parseStringBody f rest2 with
          | none => none
          | some (s, r) => some (u :: s, r)
    else
      match parseStringBody f rest with
      | none => none
      | some (s, r) => some (c :: s, r)

/-- Is a key already present in an ordered-map pair list. -/
def keyMem (k : String) : List (String × J) → Bool
  | [] => false
  | (k0, _) :: rest => k0 = k || keyMem k rest

/-- One OrderedDict assignment: an existing key keeps its position and
takes the new value, a new key is appended at the end. -/
def odInsert : List (String × J) → String → J → List (String × J)
  | [], k, v => [(k, v)]
  | (k0, v0) :: rest, k, v =>
    if k0 = k then (k0, v) :: rest else (k0, v0) :: odInsert rest k v

/-- OrderedDict built from a pair list, as the object_pairs_hook=OrderedDict
decoder (src line 218) does for every decoded json object: pairs are
assigned left to right, so duplicate keys collapse to one entry at the
first position holding the last value. -/
def odFromPairs (pairs : List (String × J)) : List (String × J) :=
  pairs.foldl (fun acc kv => odInsert acc kv.1 kv.2) []

mutual
/-- Recursive descent json value scanner, one fuel unit per recursion step.
Models the Python json scanner reached through
json.JSONDecoder(object_pairs_hook=OrderedDict).raw_decode (the decoder
built at src line 218): scanning starts at the given position without
skipping leading whitespace (raw_decode scans at the exact index it is
given), whitespace inside arrays and objects is skipped, and every decoded
object goes through the OrderedDict hook. Number literals are modelled as
optionally signed decimal integers (no claim exercises float syntax).
Returns the decoded value and the remaining input, so the consumed length
is the raw_decode end position. -/
def parseV : Nat → List Char → Option (J × List Char)
  | 0, _ => none
  | _ + 1, [] => none
  | f + 1, c :: rest =>
    if c = '{' then
      match skipWS rest with
      | [] => none
      | d :: rest2 =>
        if d = '}' then some (J.obj [], rest2)
        else
          match parseMembers f (d :: rest2) with
          | none => none
          | some (kvs, r) => some (J.obj (odFromPairs kvs), r)
    else if c = '[' then
      match skipWS rest with
      | [] => none
      | d :: rest2 =>
        if d = ']' then some (J.arr [], rest2)
        else
          match parseItems f (d :: rest2) with
          | none => none
          | some (xs, r) => some (J.arr xs, r)
    else if c = '"' then
      match parseStringBody f rest with
      | none => none
      | some (s, r) => some (J.str (String.mk s), r)
    else if c = 'n' then
      match rest with
      | 'u' :: 'l' :: 'l' :: r => some (J.null, r)
      | _ => none
    else if c = 't' then
      match rest with
      | 'r' :: 'u' :: 'e' :: r => some (J.bool true, r)
      | _ => none
    else if c = 'f' then
      match rest with
      | 'a' :: 'l' :: 's' :: 'e' :: r => some (J.bool false, r)
      | _ => none
    else if c = '-' then
      match takeDigits rest with
      | ([], _) => none
      | (d :: ds, r) => some (J.num (-(digitsVal (d :: ds) : Int)), r)
    else if c.isDigit then
      match takeDigits (c :: rest) with
      | (ds, r) => some (J.num ((digitsVal ds : Nat) : Int), r)
    else none

def parseItems : Nat → List Char → Option (List J × List Char)
  | 0, _ => none
  | f + 1, cs =>
    match parseV f cs with
    | none => none
    | some (v, rest) =>
      match skipWS rest with
      | [] => none
      | d :: rest2 =>
        if d = ',' then
          match parseItems f (skipWS rest2) with
          | none => none
          | some (xs, r) => some (v :: xs, r)
        else if d = ']' then some ([v], rest2)
        else none

def parseMembers : Nat → List Char → Option (List (String × J) × List Char)
  | 0, _ => none
  | f + 1, cs =>
    match cs with
    | [] => none
    | c :: rest =>
      if c = '"' then
        match parseStringBody f rest with
        | none => none
        | some (k, rest1) =>
          match skipWS rest1 with
          | [] => none
          | d :: rest2 =>
            if d = ':' then
              match parseV f (skipWS rest2) with
              | none => none
              | some (v, rest3) =>
                match skipWS rest3 with
                | [] => none
                | e :: rest4 =>
                  if e = ',' then
                    match parseMembers f (skipWS rest4) with
                    | none => none
                    | some (kvs, r) => some ((String.mk k, v) :: kvs, r)
                  else if e = '}' then some ([(String.mk k, v)], rest4)
                  else none
            else none
      else none
end

/-- json.JSONDecoder(object_pairs_hook=OrderedDict).raw_decode (the decoder
of src line 218) on the whole input: scan one value starting at index 0
(leading whitespace is NOT skipped; raw_decode raises JSONDecodeError
when the character at the start index does not begin a value). The fuel
bound length + 1 is enough for any input that scans successfully. Failure
(none) models a raised JSONDecodeError. The second component is the
remaining input, so raw_decode returns end position
input.length - remainder.length. -/
def rawDecode (s : List Char) : Option (J × List Char) := parseV (s.length + 1) s

/-- Embeds decode_output_docs (src lines 69-73): repeatedly raw_decode the
front of the remaining process output, then drop the decoded value PLUS
ONE character (the slice jq_output[pos + 1:]), yielding decoded documents
until the remaining text is empty. An ok result is the list of yielded
documents of a run in which the loop terminated normally; an error result
carries the documents yielded before raw_decode raised JSONDecodeError
(the generator raises after those yields). -/
def decodeOutputDocsGo : Nat → List Char → Except (List J) (List J)
  | _, [] => .ok []
  | 0, _ :: _ => .error []
  | f + 1, c :: cs =>
    match rawDecode (c :: cs) with
    | none => .error []
    | some (v, rest) =>
      match decodeOutputDocsGo f (rest.drop 1) with
      | .ok vs => .ok (v :: vs)
      | .error vs => .error (v :: vs)

/-- decode_output_docs on a whole output string. Each loop iteration
consumes at least one character, so fuel = length is enough fuel. -/
def decode_output_docs (jqOutput : String) : Except (List J) (List J) :=
  decodeOutputDocsGo jqOutput.data.length jqOutput.data

/-! # A canonical whitespace-free rendering of document values

Used to state which texts are a concatenation of N JSON values. This is a
specification-side encoder (the claims quantify over texts made of JSON
values); it is not taken from the source.
-/

/-- Decimal digit characters of a natural number, most significant first;
fuel-driven so that the definition computes by kernel reduction. -/
def natCharsAux : Nat → Nat → List Char
  | 0, _ => []
  | f + 1, n =>
    if n < 10 then [Nat.digitChar n]
    else natCharsAux f (n / 10) ++ [Nat.digitChar (n % 10)]

def natChars (n : Nat) : List Char := natCharsAux (n + 1) n

/-- Decimal rendering of an integer. -/
def intChars (i : Int) : List Char :=
  if i < 0 then '-' :: natChars i.natAbs else natChars i.toNat

/-- Escape one character for a json string literal. -/
def encStrChar (c : Char) : List Char :=
  if c = '"' then ['\\', '"']
  else if c = '\\' then ['\\', '\\']
  else if c = '\n' then ['\\', 'n']
  else if c = '\r' then ['\\', 'r']
  else if c = '\t' then ['\\', 't']
  else if c = Char.ofNat 8 then ['\\', 'b']
  else if c = Char.ofNat 12 then ['\\', 'f']
  else [c]

/-- A json string literal, quotes included. -/
def encKey (k : String) : List Char :=
  '"' :: (k.data.map encStrChar).flatten ++ ['"']

/-- The json keyword literals. -/
def nullChars : List Char := "null".data

def trueChars : List Char := "true".data

def falseChars : List Char := "false".data

mutual
/-- Whitespace-free json text of a value (arrays and objects without any
space after commas and colons). -/
def encData : J → List Char
  | .null => nullChars
  | .bool true => trueChars
  | .bool false => falseChars
  | .num i => intChars i
  | .str s => encKey s
  | .arr xs => '[' :: encList xs ++ [']']
  | .obj kvs => '{' :: encMembers kvs ++ ['}']

def encList : List J → List Char
  | [] => []
  | [x] => encData x
  | x :: y :: ys => encData x ++ ',' :: encList (y :: ys)

def encMembers : List (String × J) → List Char
  | [] => []
  | [(k, v)] => encKey k ++ ':' :: encData v
  | (k, v) :: m :: ms => encKey k ++ ':' :: encData v ++ ',' :: encMembers (m :: ms)
end

/-- Duplicate-free key list of an object pair list. -/
def nodupKeysB : List (String × J) → Bool
  | [] => true
  | (k, _) :: rest => !keyMem k rest && nodupKeysB rest

mutual
/-- Well-formed document values: every object, at every depth, has
duplicate-free keys. A document with duplicate keys does not survive the
OrderedDict hook unchanged, so round-trip statements are about these. -/
def wfJ : J → Bool
  | .null => true
  | .bool _ => true
  | .num _ => true
  | .str _ => true
  | .arr xs => wfList xs
  | .obj kvs => nodupKeysB kvs && wfMembers kvs

def wfList : List J → Bool
  | [] => true
  | x :: xs => wfJ x && wfList xs

def wfMembers : List (String × J) → Bool
  | [] => true
  | (_, v) :: rest => wfJ v && wfMembers rest
end

/-- The framing jq actually emits on its output channel: each value is
followed by one newline. -/
def jqFrame : List J → List Char
  | [] => []
  | d :: rest => encData d ++ '\n' :: jqFrame rest

/-! # Python runtime model

Exceptions and attribute lookup, to the extent the embedded code raises
or looks things up dynamically.
-/

/-- The apostrophe character, as Python quotes names inside error text. -/
def apos : Char := '\x27'

def aposStr : String := String.singleton apos

/-- The Python exceptions the embedded code can raise. -/
inductive PyError where
  | nameError (missingName : String)
  | attributeError (attrName : String)
  deriving DecidableEq

/-- type(e).__name__ for the modelled exceptions. -/
def pyErrorTypeName : PyError → String
  | .nameError _ => "NameError"
  | .attributeError _ => "AttributeError"

/-- str(e) for the modelled exceptions. -/
def pyErrorStr : PyError → String
  | .nameError n => "name " ++ aposStr ++ n ++ aposStr ++ " is not defined"
  | .attributeError a =>
      aposStr ++ "_io.TextIOWrapper" ++ aposStr ++ " object has no attribute " ++ aposStr ++ a ++ aposStr

/-- The attribute set of a Python text-mode file object (io.TextIOWrapper,
the type of sys.stderr), from the Python io module documentation. There is
no print attribute: writing is done with write. -/
def textIOAttrs : List String :=
  ["write", "writelines", "read", "readline", "readlines", "flush", "close",
   "closed", "fileno", "isatty", "seek", "seekable", "tell", "truncate",
   "writable", "readable", "detach", "reconfigure", "buffer", "encoding",
   "errors", "newlines", "line_buffering", "write_through", "name", "mode"]

/-- Python attribute lookup on a text file object: a name outside the
attribute set raises AttributeError. -/
def getattrFileObject (attr : String) : Except PyError Unit :=
  if attr ∈ textIOAttrs then .ok () else .error (.attributeError attr)

/-! # Input streams and the fifo helper -/

/-- What the embedding needs to know about one open input stream: its
name attribute and whether it is sys.stdin. -/
structure InputStreamInfo where
  name : String
  isStdin : Bool
  deriving DecidableEq

/-- Embeds mktempfifo (src lines 30-47). For sys.stdin it returns None
without touching the filesystem. Otherwise tempfile.mktemp picks a path
next to the input file (given here as fifoName) and os.mkfifo creates the
fifo; fifoNameCollides says whether that path already exists, in which
case os.mkfifo raises FileExistsError and control enters the except
clause at line 44. The handler first evaluates the attribute access
sys.stderr.print (line 46); file objects have no print attribute, so the
lookup itself raises AttributeError out of mktempfifo before any warning
text is built or written and before the return None at line 47. -/
def mktempfifo (inputStream : InputStreamInfo) (fifoName : String)
    (fifoNameCollides : Bool) : Except PyError (Option String) :=
  if inputStream.isStdin then .ok none
  else if fifoNameCollides then
    match getattrFileObject "print" with
    | .error e => .error e
    | .ok _ => .ok none
  else .ok (some fifoName)

/-- Embeds the comprehension at src lines 188-192 building
input_streams_with_lazy_fifos: mktempfifo runs once per input stream, in
order; the comprehension is evaluated before the try statement at line
194, so an exception raised inside it propagates out of yq uncaught. -/
def fifoSetupPhase :
    List (InputStreamInfo × String × Bool) → Except PyError (List (InputStreamInfo × Option String))
  | [] => .ok []
  | (inp, fname, collides) :: rest =>
    match mktempfifo inp fname collides with
    | .error e => .error e
    | .ok r =>
      match fifoSetupPhase rest with
      | .error e => .error e
      | .ok rs => .ok ((inp, r) :: rs)

/-! # The input serializer -/

/-- Embeds stream_input_docs (src lines 49-53). The loop body opens
open(input_fifo_name, w-mode); the name input_fifo_name is bound neither
among the function locals (input_streams_with_targets, input_format,
input_stream, target) nor at module level, so the first iteration raises
NameError before any document is serialized or written. With an empty
input list the loop body never runs and nothing is written (ok with an
empty write list). -/
def stream_input_docs (inputStreamsWithTargets : List (InputStreamInfo × Option String))
    (inputFormat : String) : Except PyError (List String) :=
  match inputStreamsWithTargets, inputFormat with
  | [], _ => .ok []
  | _ :: _, _ => .error (.nameError "input_fifo_name")

mutual
/-- The json.dump rendering with its default separators: a comma plus one
space between container items and a colon plus one space after keys
(json.dump(doc, fh) at src line 53 passes no separators argument).
Non-ascii escaping is not modelled. -/
def dumpsPy : J → List Char
  | .null => nullChars
  | .bool true => trueChars
  | .bool false => falseChars
  | .num i => intChars i
  | .str s => encKey s
  | .arr xs => '[' :: dumpsList xs ++ [']']
  | .obj kvs => '{' :: dumpsMembers kvs ++ ['}']

def dumpsList : List J → List Char
  | [] => []
  | [x] => dumpsPy x
  | x :: y :: ys => dumpsPy x ++ ',' :: ' ' :: dumpsList (y :: ys)

def dumpsMembers : List (String × J) → List Char
  | [] => []
  | [(k, v)] => encKey k ++ ':' :: ' ' :: dumpsPy v
  | (k, v) :: m :: ms => encKey k ++ ':' :: ' ' :: dumpsPy v ++ ',' :: ' ' :: dumpsMembers (m :: ms)
end

/-- Concatenation of a list of strings, no separator. -/
def strJoin : List String → String
  | [] => ""
  | s :: rest => s ++ strJoin rest

/-- The stream_input_docs loop with its undefined name read as the fifo of
the current tuple (the evident intent of the refactor): for each input,
the documents are serialized one json.dump directly after another onto
that input fifo. json.dump writes no separator of its own between calls,
so the fifo content per input is the bare concatenation of the document
texts, with no newline between documents. Each input is given as its
document list; the result is the text written to each fifo, in order. -/
def streamInputDocsNameFixed (inputs : List (List J)) : List String :=
  inputs.map (fun docs => strJoin (docs.map (fun d => String.mk (dumpsPy d))))

/-! # The orchestrator: spawn phase and post-spawn body -/

/-- The names bound in the local scope of yq by the time control reaches
the Popen call: the parameters (src lines 176-178) and the assignments at
lines 185-192. The def statement at line 187 is left malformed in the
source and binds nothing. -/
def yqLocalNames : List String :=
  ["input_streams", "output_stream", "input_format", "output_format",
   "program_name", "width", "indentless_lists", "xml_root", "xml_dtd",
   "jq_args", "exit_func", "converting_output", "input_streams_with_lazy_fifos"]

/-- The module-level names of src/yq/__init__.py visible from inside yq
(imports at lines 12-22 and the module defs and classes). -/
def yqModuleGlobals : List String :=
  ["sys", "argparse", "subprocess", "json", "os", "tempfile", "OrderedDict",
   "datetime", "date", "time", "yaml", "argcomplete", "USING_PYTHON2", "open",
   "get_parser", "jq_arg_spec", "get_loader", "get_dumper", "JSONDateTimeEncoder",
   "mktempfifo", "stream_input_docs", "load_input_docs", "decode_output_docs",
   "xq_cli", "tq_cli", "DeferredOutputStream", "LazyFifodInputStream", "cli", "yq"]

/-- Python name resolution inside yq: local scope, then module globals; a
name in neither raises NameError. -/
def resolveNameInYq (n : String) : Except PyError Unit :=
  if n ∈ yqLocalNames ∨ n ∈ yqModuleGlobals then .ok () else .error (.nameError n)

/-- What one OSError carries: type(e).__name__ and str(e). -/
structure OSErrorInfo where
  typeName : String
  detail : String
  deriving DecidableEq

/-- The message built at src lines 201-202 when Popen raises OSError:
msg.format(program_name, type(e).__name__, e). -/
def spawnErrorMsg (programName typeName detail : String) : String :=
  programName ++ ": Error starting jq: " ++ typeName ++ ": " ++ detail ++
    ". Is jq installed and available on PATH?"

/-- The message built at src line 263 when the post-spawn body raises:
the except Exception clause formats program name, exception type name and
text into the Error running jq message handed to exit_func. -/
def runErrorMsg (programName : String) (e : PyError) : String :=
  programName ++ ": Error running jq: " ++ pyErrorTypeName e ++ ": " ++ pyErrorStr e ++ "."

/-- What exit_func received. -/
inductive ExitArg where
  | msg (s : String)
  | status (code : Int)
  deriving DecidableEq

/-- Observable outcome of one yq run: the exception that propagated out of
yq uncaught (if any), the exit_func calls in order, whether jq.wait() ran,
whether the input streams were closed, the texts written to the output
stream, and whether any output transcoding was attempted. -/
structure YqRunOutcome where
  uncaught : Option PyError
  exitCalls : List ExitArg
  waitedForProcess : Bool
  inputsClosed : Bool
  outputWrites : List String
  transcodeAttempted : Bool
  deriving DecidableEq

/-- Embeds the body of yq from the fifo comprehension through the Popen
call (src lines 188-202). The comprehension runs first; an exception
there propagates uncaught. Then the Popen argument list is evaluated: it
reads the name input_streams_with_fifo_names (line 196), which is bound
nowhere, so evaluating the arguments raises NameError before any process
is spawned; NameError is not an OSError, so the except clause at line 200
does not catch it and it propagates out of yq uncaught. The spawn branch
that formats spawnErrorMsg (lines 200-202) is therefore dead code for
every input; it is transcribed in the ok branch for completeness.
spawnResult stands for what Popen would do: error e when spawning the
executable fails with an OSError, ok rc when the process runs and
eventually exits with status rc. -/
def yqRun (spawnResult : Except OSErrorInfo Int)
    (inputs : List (InputStreamInfo × String × Bool))
    (programName : String) (_convertingOutput : Bool) : YqRunOutcome :=
  match fifoSetupPhase inputs with
  | .error e => ⟨some e, [], false, false, [], false⟩
  | .ok _ =>
    match resolveNameInYq "input_streams_with_fifo_names" with
    | .error e => ⟨some e, [], false, false, [], false⟩
    | .ok _ =>
      match spawnResult with
      | .error e =>
        ⟨none, [.msg (spawnErrorMsg programName e.typeName e.detail)], false, false, [], false⟩
      | .ok _ => ⟨none, [], false, false, [], false⟩

/-- Embeds the post-spawn body of yq (src lines 204-263) as it would
execute if control could reach it, i.e. with the line 196 argument list
repaired to read the bound name input_streams_with_lazy_fifos. Inside the
try block, stream_input_docs runs first and raises NameError for every
nonempty input list. In the converting branch the dump calls read the
name jq_out (lines 220, 225, 244), which is bound nowhere in yq, raising
NameError; that branch never calls jq.wait(). Only the non-converting
branch waits (line 258), and only the no-exception path closes the input
streams (lines 259-260) and propagates jq.returncode through exit_func
(line 261). The except Exception clause at lines 262-263 turns any raised
exception into an exit_func call with the Error running jq message. -/
def yqPostSpawn (programName : String) (pairs : List (InputStreamInfo × Option String))
    (inputFormat : String) (convertingOutput : Bool) (jqReturncode : Int) : YqRunOutcome :=
  match stream_input_docs pairs inputFormat with
  | .error e => ⟨none, [.msg (runErrorMsg programName e)], false, false, [], false⟩
  | .ok _ =>
    if convertingOutput then
      ⟨none, [.msg (runErrorMsg programName (.nameError "jq_out"))], false, false, [], false⟩
    else
      ⟨none, [.status jqReturncode], true, true, [], false⟩

/-! # The deferred in-place output stream -/

/-- Embeds DeferredOutputStream (src lines 81-102): name and mode from the
constructor, and whether the underlying file handle exists yet (the _fh
field being non-None). -/
structure DeferredOutputStream where
  name : String
  mode : String
  fhOpen : Bool
  deriving DecidableEq

/-- Embeds src line 172: in in-place mode each input is processed with
output_stream = DeferredOutputStream(input_stream.name), mode defaulting
to w, no handle open yet. -/
def inPlaceOutputStream (inputName : String) : DeferredOutputStream :=
  ⟨inputName, "w", false⟩

/-- A filesystem is the on-disk content of each path. -/
abbrev FileSystem := String → String

/-- Update one path. -/
def fsSet (fs : FileSystem) (n v : String) : FileSystem :=
  fun m => if m = n then v else fs m

/-- One write call on a DeferredOutputStream. Attribute access for write
goes through getattr at src line 102, which reads the fh property (lines
87-91): on first use it runs open(self.name, self.mode), and mode w
truncates the file at that moment. The text then goes to the handle. So
the first write replaces the on-disk content with the text written, and
later writes append. -/
def dosWrite (fs : FileSystem) (d : DeferredOutputStream) (text : String) :
    FileSystem × DeferredOutputStream :=
  if d.fhOpen then (fsSet fs d.name (fs d.name ++ text), d)
  else (fsSet fs d.name text, { d with fhOpen := true })

/-- Models yaml.dump_all (src lines 220-222) consuming the decoded
document iterator with a DeferredOutputStream as its stream: each
document pulled from the iterator is serialized and written to the stream
before the next one is pulled (PyYAML serializes incrementally); if the
iterator raises partway, the documents already pulled have already been
written. The document texts are abstracted as a list, with none marking
the point where the iterator raises. Returns the filesystem, the stream
state, and whether the dump completed without the iterator raising. -/
def dumpAllDeferred (fs : FileSystem) (d : DeferredOutputStream) :
    List (Option String) → FileSystem × DeferredOutputStream × Bool
  | [] => (fs, d, true)
  | none :: _ => (fs, d, false)
  | some t :: rest =>
    let p := dosWrite fs d t
    dumpAllDeferred p.1 p.2 rest

/-- The document texts successfully produced before the first failure
point (everything, when there is no failure marker). -/
def writtenPrefix : List (Option String) → List String
  | [] => []
  | none :: _ => []
  | some t :: rest => t :: writtenPrefix rest

/-! # The in-place gate of cli -/

/-- The cli state the in-place gate looks at: whether the interpreter is
Python 2 (the USING_PYTHON2 flag of the compat module), the requested
output format, and the name attribute of each input stream, in order. -/
structure InPlaceConfig where
  usingPython2 : Bool
  outputFormat : String
  inputStreamNames : List String
  deriving DecidableEq

/-- Embeds the in-place gate of cli (src lines 157-165), run before any
yq call when -i was requested: reject on Python 2; reject unless the
output format is yaml or annotated_yaml; reject when there is exactly one
input stream and its name attribute is the stdin marker. A some result is
the message passed to sys.exit; none means the in-place loop proceeds. -/
def inPlaceGate (programName : String) (c : InPlaceConfig) : Option String :=
  if c.usingPython2 = true then
    some (programName ++ ": -i/--in-place is not compatible with Python 2")
  else if ¬(c.outputFormat = "yaml" ∨ c.outputFormat = "annotated_yaml") then
    some (programName ++ ": -i/--in-place can only be used with -y/-Y")
  else if c.inputStreamNames.length = 1 ∧ c.inputStreamNames.head? = some "<stdin>" then
    some (programName ++
      ": -i/--in-place can only be used with filename arguments, not on standard input")
  else none

/-! # Per-document XML and TOML output steps -/

/-- Is the decoded document a json object (the decoder of src line 218
returns OrderedDict for objects, so the isinstance OrderedDict tests at
src lines 228 and 245 test exactly this). -/
def isObjJ : J → Bool
  | .obj _ => true
  | _ => false

/-- Substring test on character lists (needle, haystack). -/
def listPrefixB : List Char → List Char → Bool
  | [], _ => true
  | _ :: _, [] => false
  | p :: ps, c :: cs => p = c && listPrefixB ps cs

def listInfixB : List Char → List Char → Bool
  | p, [] => listPrefixB p []
  | p, c :: cs => listPrefixB p (c :: cs) || listInfixB p cs

/-- The message built at src lines 229-231 for a non-object top-level
value bound for XML (the two adjacent string literals of the source
concatenated, formatted with the program name). -/
def xmlNonObjectMsg (programName : String) : String :=
  programName ++ ": Error converting JSON to XML: cannot represent non-object types at " ++
    "top level. Use --xml-root=name to envelope your output with a root element."

/-- The message built at src lines 246-247 for a non-object top-level
value bound for TOML. -/
def tomlNonObjectMsg (programName : String) : String :=
  programName ++ ": Error converting JSON to TOML: cannot represent non-object types at top level."

/-- The advice sentence that tells the user about the wrapping-root
option. -/
def xmlRootAdvice : String :=
  "Use --xml-root=name to envelope your output with a root element."

mutual
/-- Modelled from the spec: the XML-like encoder (xmltodict.unparse) is an
external collaborator specified only at its interface (spec section 6:
the root-element-required rule and optional DTD prologue; xmltodict is
imported, not part of src/). Renders each key of a mapping as one XML
element whose body is the rendered value. Pretty printing, attribute
keys and list-tag repetition are not modelled; no claim exercises them. -/
def xmlRenderValue : J → String
  | .null => ""
  | .bool true => "true"
  | .bool false => "false"
  | .num i => String.mk (intChars i)
  | .str s => s
  | .arr xs => xmlRenderSeq xs
  | .obj kvs => xmlRenderMembers kvs

def xmlRenderMembers : List (String × J) → String
  | [] => ""
  | (k, v) :: rest => "<" ++ k ++ ">" ++ xmlRenderValue v ++ "</" ++ k ++ ">" ++ xmlRenderMembers rest

def xmlRenderSeq : List J → String
  | [] => ""
  | x :: rest => xmlRenderValue x ++ xmlRenderSeq rest
end

/-- Modelled from the spec: xmltodict.unparse with full_document set (the
DTD-prologue mode) raises ValueError - Document must have exactly one
root. - unless the mapping has exactly one top-level key; otherwise it
renders the mapping. Input is always a mapping at the call sites in yq
(guarded at line 228 or wrapped at line 227). -/
def xmltodictUnparse (fullDocument : Bool) (doc : J) : Except String String :=
  match doc with
  | .obj kvs =>
    if fullDocument ∧ kvs.length ≠ 1 then .error "Document must have exactly one root."
    else .ok (xmlRenderMembers kvs)
  | _ => .error "Document must have exactly one root."

/-- How one output document leaves the encoding step: written to the
output stream, aborted via exit_func with a message (exit_func defaults
to sys.exit, which raises SystemExit, so nothing later in the branch
runs), or a raised exception. -/
inductive EncodeOutcome where
  | wrote (text : String)
  | exited (message : String)
  | raised (message : String)
  deriving DecidableEq

/-- Embeds the xml branch of yq for one decoded document (src lines
223-241): when xml_root is set the document is wrapped as a one-key
mapping named by it; otherwise a non-OrderedDict top level aborts through
exit_func with the root-element message. The document is then unparsed
with full_document = xml_dtd; a ValueError whose text contains - Document
must have exactly one root - is re-raised with the advice sentence
appended (src line 238), other ValueErrors are re-raised as they are. A
newline is written after the document (src line 241). -/
def xmlOutputDoc (programName : String) (xmlRoot : Option String) (xmlDtd : Bool)
    (doc : J) : EncodeOutcome :=
  match xmlRoot with
  | some root =>
    match xmltodictUnparse xmlDtd (J.obj [(root, doc)]) with
    | .ok t => .wrote (t ++ "\n")
    | .error e =>
      if listInfixB "Document must have exactly one root".data e.data
      then .raised (e ++ " Use --xml-root=name to envelope your output with a root element")
      else .raised e
  | none =>
    if isObjJ doc then
      match xmltodictUnparse xmlDtd doc with
      | .ok t => .wrote (t ++ "\n")
      | .error e =>
        if listInfixB "Document must have exactly one root".data e.data
        then .raised (e ++ " Use --xml-root=name to envelope your output with a root element")
        else .raised e
    else .exited (xmlNonObjectMsg programName)

/-- Modelled from the spec: toml.dump (imported, not part of src/) renders
a mapping as key = value lines; only its object-only top-level rule
matters to the claims, so the rendering is a simple placeholder over the
embedded value type. -/
def tomlDumps : J → String
  | .obj kvs => strJoin (kvs.map (fun kv => kv.1 ++ " = " ++ xmlRenderValue kv.2 ++ "\n"))
  | _ => ""

/-- Embeds the toml branch of yq for one decoded document (src lines
242-255): a non-OrderedDict top level aborts through exit_func with the
TOML non-object message (which names no option); otherwise toml.dump
writes the document. -/
def tomlOutputDoc (programName : String) (doc : J) : EncodeOutcome :=
  if isObjJ doc then .wrote (tomlDumps doc) else .exited (tomlNonObjectMsg programName)

/-! # The yaml dumper key order -/

/-- Modelled from the spec: the yaml-like dumper obtained from get_dumper
(module yq/dumper.py, not under src/) serializes a mapping by walking its
items in stored order, so the emitted key order is the insertion order of
the OrderedDict being dumped. This definition exposes that emitted key
order. -/
def yamlDumpKeyOrder : J → List String
  | .obj kvs => kvs.map Prod.fst
  | _ => []

/-! # The JSONDateTimeEncoder hook -/

/-- A Python object reaching a json encoder default hook: a datetime,
date or time value (fields modelled to the second; microseconds and
timezones are not exercised by any claim), or any other object, carried
as its class name. -/
inductive PyObj where
  | pyDatetime (year month day hour minute second : Nat)
  | pyDate (year month day : Nat)
  | pyTime (hour minute second : Nat)
  | pyOther (className : String)
  deriving DecidableEq

/-- Zero-padded two-digit field, as datetime isoformat renders month,
day, hour, minute and second. -/
def pad2 (n : Nat) : String := if n < 10 then "0" ++ toString n else toString n

/-- Zero-padded four-digit year. -/
def pad4 (n : Nat) : String :=
  if n < 10 then "000" ++ toString n
  else if n < 100 then "00" ++ toString n
  else if n < 1000 then "0" ++ toString n
  else toString n

/-- date.isoformat(): YYYY-MM-DD. -/
def dateIsoformat (y m d : Nat) : String := pad4 y ++ "-" ++ pad2 m ++ "-" ++ pad2 d

/-- time.isoformat() with zero microseconds: HH:MM:SS. -/
def timeIsoformat (h mi s : Nat) : String := pad2 h ++ ":" ++ pad2 mi ++ ":" ++ pad2 s

/-- datetime.isoformat() with the default separator: date, T, time. -/
def datetimeIsoformat (y mo d h mi s : Nat) : String :=
  dateIsoformat y mo d ++ "T" ++ timeIsoformat h mi s

/-- isoformat() of a datetime-like object. -/
def pyObjIsoformat : PyObj → Option String
  | .pyDatetime y mo d h mi s => some (datetimeIsoformat y mo d h mi s)
  | .pyDate y m d => some (dateIsoformat y m d)
  | .pyTime h mi s => some (timeIsoformat h mi s)
  | .pyOther _ => none

/-- The class name Python reports for the object. -/
def pyObjClassName : PyObj → String
  | .pyDatetime _ _ _ _ _ _ => "datetime"
  | .pyDate _ _ _ => "date"
  | .pyTime _ _ _ => "time"
  | .pyOther c => c

/-- Embeds json.JSONEncoder.default (Python stdlib): the base hook
serializes nothing - it raises TypeError for every object handed to it,
naming the class of the object. -/
def JSONEncoder_default (o : PyObj) : Except String String :=
  .error ("Object of type " ++ pyObjClassName o ++ " is not JSON serializable")

/-- Embeds JSONDateTimeEncoder.default (src lines 24-28): a datetime,
date or time instance returns its isoformat(); any other object falls
through to json.JSONEncoder.default. -/
def JSONDateTimeEncoder_default (o : PyObj) : Except String String :=
  match o with
  | .pyDatetime y mo d h mi s => .ok (datetimeIsoformat y mo d h mi s)
  | .pyDate y m d => .ok (dateIsoformat y m d)
  | .pyTime h mi s => .ok (timeIsoformat h mi s)
  | .pyOther _ => JSONEncoder_default o

/-- The input does not begin with a decimal digit (so a preceding number
literal cannot absorb it). -/
def headNotDigit : List Char → Prop
  | [] => True
  | c :: _ => c.isDigit = false

/-! # Infrastructure lemmas -/

theorem strAppend_empty (s : String) : s ++ "" = s := by
  apply String.ext
  rw [String.data_append]
  simp

theorem strJoin_cons (s : String) (l : List String) :
    strJoin (s :: l) = s ++ strJoin l := rfl

theorem skipWS_cons_of_not_ws {c : Char} (l : List Char) (h : isWS c = false) :
    skipWS (c :: l) = c :: l := by
  simp [skipWS, h]

theorem digitChar_isDigit : ∀ d, d < 10 → (Nat.digitChar d).isDigit = true := by decide

theorem digitVal_digitChar : ∀ d, d < 10 → digitVal (Nat.digitChar d) = d := by decide

theorem digit_ne {c x : Char} (h : c.isDigit = true) (hx : x.isDigit = false) : c ≠ x := by
  intro he
  rw [he, hx] at h
  exact Bool.false_ne_true h

theorem digit_not_ws {c : Char} (h : c.isDigit = true) : isWS c = false := by
  unfold isWS
  rw [decide_eq_false (digit_ne h (by decide) : c ≠ ' '),
      decide_eq_false (digit_ne h (by decide) : c ≠ '\t'),
      decide_eq_false (digit_ne h (by decide) : c ≠ '\n'),
      decide_eq_false (digit_ne h (by decide) : c ≠ '\r')]
  rfl

theorem natCharsAux_congr : ∀ f g n, n < f → n < g → natCharsAux f n = natCharsAux g n := by
  intro f
  induction f with
  | zero => intro g n h; omega
  | succ f ih =>
    intro g n hf hg
    cases g with
    | zero => omega
    | succ g =>
      by_cases h10 : n < 10
      · simp [natCharsAux, h10]
      · simp only [natCharsAux, if_neg h10]
        rw [ih g (n / 10) (by omega) (by omega)]

theorem natCharsAux_succ (f n : Nat) :
    natCharsAux (f + 1) n = if n < 10 then [Nat.digitChar n]
                            else natCharsAux f (n / 10) ++ [Nat.digitChar (n % 10)] := rfl

theorem natChars_def (n : Nat) :
    natChars n = if n < 10 then [Nat.digitChar n]
                 else natChars (n / 10) ++ [Nat.digitChar (n % 10)] := by
  by_cases h : n < 10
  · rw [if_pos h, natChars, natCharsAux_succ, if_pos h]
  · rw [if_neg h, natChars, natCharsAux_succ, if_neg h,
      natCharsAux_congr n (n / 10 + 1) (n / 10) (by omega) (by omega)]
    rfl

theorem natChars_all_digit (n : Nat) : ∀ c ∈ natChars n, c.isDigit = true := by
  induction n using Nat.strong_induction_on with
  | _ n ih =>
    rw [natChars_def]
    by_cases h : n < 10
    · simp only [if_pos h, List.mem_singleton]
      intro c hc
      rw [hc]
      exact digitChar_isDigit n h
    · simp only [if_neg h, List.mem_append, List.mem_singleton]
      intro c hc
      rcases hc with hc | hc
      · exact ih (n / 10) (by omega) c hc
      · rw [hc]
        exact digitChar_isDigit (n % 10) (by omega)

theorem natChars_head_digit (n : Nat) :
    ∃ c cs, natChars n = c :: cs ∧ c.isDigit = true := by
  induction n using Nat.strong_induction_on with
  | _ n ih =>
    rw [natChars_def]
    by_cases h : n < 10
    · exact ⟨Nat.digitChar n, [], by simp [h], digitChar_isDigit n h⟩
    · obtain ⟨c, cs, hc, hd⟩ := ih (n / 10) (by omega)
      exact ⟨c, cs ++ [Nat.digitChar (n % 10)], by simp [h, hc], hd⟩

theorem natChars_ne_nil (n : Nat) : natChars n ≠ [] := by
  obtain ⟨c, cs, hc, _⟩ := natChars_head_digit n
  simp [hc]

theorem digitsValFrom_natChars (n : Nat) :
    ∀ a, List.foldl (fun x c => 10 * x + digitVal c) a (natChars n) =
      a * 10 ^ (natChars n).length + n := by
  induction n using Nat.strong_induction_on with
  | _ n ih =>
    intro a
    rw [natChars_def]
    by_cases h : n < 10
    · simp only [if_pos h, List.foldl_cons, List.foldl_nil, List.length_singleton,
        pow_one, digitVal_digitChar n h]
      omega
    · simp only [if_neg h, List.foldl_append, List.foldl_cons, List.foldl_nil,
        List.length_append, List.length_singleton]
      rw [ih (n / 10) (by omega) a, digitVal_digitChar (n % 10) (by omega), pow_succ]
      have hn : 10 * (n / 10) + n % 10 = n := by omega
      have e1 : 10 * (a * 10 ^ (natChars (n / 10)).length + n / 10) + n % 10 =
          a * (10 ^ (natChars (n / 10)).length * 10) + (10 * (n / 10) + n % 10) := by ring
      rw [e1, hn]

theorem digitsVal_natChars (n : Nat) : digitsVal (natChars n) = n := by
  unfold digitsVal
  rw [digitsValFrom_natChars n 0]
  simp

theorem headNotDigit_cons (c : Char) (l : List Char) :
    headNotDigit (c :: l) = (c.isDigit = false) := rfl

theorem takeDigits_append (ds rest : List Char) (hd : ∀ c ∈ ds, c.isDigit = true)
    (hr : headNotDigit rest) : takeDigits (ds ++ rest) = (ds, rest) := by
  induction ds with
  | nil =>
    simp only [List.nil_append]
    cases rest with
    | nil => rfl
    | cons c r =>
      rw [headNotDigit_cons] at hr
      simp [takeDigits, hr]
  | cons c ds ih =>
    have hc : c.isDigit = true := hd c (by simp)
    simp only [List.cons_append, takeDigits, hc, if_pos, List.append_eq]
    rw [ih (fun x hx => hd x (by simp [hx]))]

theorem parseStringBody_enc : ∀ (cs : List Char) (f : Nat) (rest : List Char),
    cs.length < f →
    parseStringBody f ((cs.map encStrChar).flatten ++ '"' :: rest) = some (cs, rest) := by
  intro cs
  induction cs with
  | nil =>
    intro f rest hf
    cases f with
    | zero => omega
    | succ f => rfl
  | cons c cs ih =>
    intro f rest hf
    cases f with
    | zero => omega
    | succ f =>
    have ihf := ih f rest (by simpa using Nat.lt_of_succ_lt_succ hf)
    simp only [List.map_cons, List.flatten_cons, List.append_assoc]
    by_cases h1 : c = '"'
    · subst h1
      rw [show encStrChar '"' = ['\\', '"'] from rfl]
      simp [parseStringBody, unescapeChar, ihf]
    · by_cases h2 : c = '\\'
      · subst h2
        rw [show encStrChar '\\' = ['\\', '\\'] from rfl]
        simp [parseStringBody, unescapeChar, ihf]
      · by_cases h3 : c = '\n'
        · subst h3
          rw [show encStrChar '\n' = ['\\', 'n'] from rfl]
          simp [parseStringBody, unescapeChar, ihf]
        · by_cases h4 : c = '\r'
          · subst h4
            rw [show encStrChar '\r' = ['\\', 'r'] from rfl]
            simp [parseStringBody, unescapeChar, ihf]
          · by_cases h5 : c = '\t'
            · subst h5
              rw [show encStrChar '\t' = ['\\', 't'] from rfl]
              simp [parseStringBody, unescapeChar, ihf]
            · by_cases h6 : c = Char.ofNat 8
              · subst h6
                rw [show encStrChar (Char.ofNat 8) = ['\\', 'b'] from rfl]
                simp [parseStringBody, unescapeChar, ihf]
              · by_cases h7 : c = Char.ofNat 12
                · subst h7
                  rw [show encStrChar (Char.ofNat 12) = ['\\', 'f'] from rfl]
                  simp [parseStringBody, unescapeChar, ihf]
                · rw [show encStrChar c = [c] from by
                    simp [encStrChar, h1, h2, h3, h4, h5, h6, h7]]
                  simp [parseStringBody, h1, h2, ihf]

theorem encData_head (v : J) :
    ∃ c cs, encData v = c :: cs ∧ isWS c = false ∧ c ≠ ']' ∧ c ≠ '}' := by
  cases v with
  | num i =>
    show ∃ c cs, intChars i = c :: cs ∧ _
    unfold intChars
    by_cases hi : i < 0
    · rw [if_pos hi]
      refine ⟨'-', natChars i.natAbs, rfl, ?_, ?_, ?_⟩ <;> decide
    · rw [if_neg hi]
      obtain ⟨c, cs, hc, hd⟩ := natChars_head_digit i.toNat
      exact ⟨c, cs, hc, digit_not_ws hd, digit_ne hd (by decide), digit_ne hd (by decide)⟩
  | bool b =>
    rcases b with _ | _
    · refine ⟨'f', _, rfl, ?_, ?_, ?_⟩ <;> decide
    · refine ⟨'t', _, rfl, ?_, ?_, ?_⟩ <;> decide
  | null => refine ⟨'n', _, rfl, ?_, ?_, ?_⟩ <;> decide
  | str s => refine ⟨'"', _, rfl, ?_, ?_, ?_⟩ <;> decide
  | arr xs => refine ⟨'[', _, rfl, ?_, ?_, ?_⟩ <;> decide
  | obj kvs => refine ⟨'{', _, rfl, ?_, ?_, ?_⟩ <;> decide

theorem encData_ne_nil (v : J) : encData v ≠ [] := by
  obtain ⟨c, cs, hc, _, _, _⟩ := encData_head v
  simp [hc]

theorem encData_length_pos (v : J) : 1 ≤ (encData v).length := by
  obtain ⟨c, cs, hc, _, _, _⟩ := encData_head v
  simp [hc]

theorem skipWS_encData_append (v : J) (r : List Char) :
    skipWS (encData v ++ r) = encData v ++ r := by
  obtain ⟨c, cs, hc, hw, _, _⟩ := encData_head v
  rw [hc, List.cons_append, skipWS_cons_of_not_ws _ hw]

theorem encList_cons_decomp (x : J) (xs : List J) :
    ∃ t, encList (x :: xs) = encData x ++ t := by
  cases xs with
  | nil => exact ⟨[], by simp [encList]⟩
  | cons y ys => exact ⟨',' :: encList (y :: ys), rfl⟩

theorem keyMem_false_iff (k : String) (l : List (String × J)) :
    keyMem k l = false ↔ ∀ kv ∈ l, kv.1 ≠ k := by
  induction l with
  | nil => simp [keyMem]
  | cons kv rest ih =>
    obtain ⟨k0, v0⟩ := kv
    simp [keyMem, ih, decide_eq_false_iff_not]

theorem keyMem_append (k : String) (a b : List (String × J)) :
    keyMem k (a ++ b) = (keyMem k a || keyMem k b) := by
  induction a with
  | nil => simp [keyMem]
  | cons kv rest ih =>
    obtain ⟨k0, v0⟩ := kv
    simp [keyMem, ih, Bool.or_assoc]

theorem odInsert_append_of_not_mem (acc : List (String × J)) (k : String) (v : J)
    (h : keyMem k acc = false) : odInsert acc k v = acc ++ [(k, v)] := by
  induction acc with
  | nil => rfl
  | cons kv rest ih =>
    obtain ⟨k0, v0⟩ := kv
    simp only [keyMem, Bool.or_eq_false_iff, decide_eq_false_iff_not] at h
    simp only [odInsert, if_neg h.1, List.cons_append]
    rw [ih h.2]

theorem odFoldl_append (l : List (String × J)) :
    ∀ acc, nodupKeysB l = true → (∀ kv ∈ l, keyMem kv.1 acc = false) →
      List.foldl (fun a kv => odInsert a kv.1 kv.2) acc l = acc ++ l := by
  induction l with
  | nil => intro acc _ _; simp
  | cons kv rest ih =>
    intro acc hnd hmem
    obtain ⟨k, v⟩ := kv
    simp only [nodupKeysB, Bool.and_eq_true, Bool.not_eq_true'] at hnd
    simp only [List.foldl_cons]
    rw [odInsert_append_of_not_mem acc k v (hmem (k, v) (by simp))]
    rw [ih (acc ++ [(k, v)]) hnd.2]
    · simp
    · intro kv2 h2
      rw [keyMem_append]
      have h3 : keyMem kv2.1 acc = false := hmem kv2 (by simp [h2])
      have h4 : keyMem kv2.1 [(k, v)] = false := by
        simp only [keyMem, Bool.or_eq_false_iff, decide_eq_false_iff_not]
        refine ⟨?_, trivial⟩
        intro he
        have := (keyMem_false_iff k rest).mp hnd.1 kv2 h2
        exact this he.symm
      rw [h3, h4]
      rfl

theorem odFromPairs_eq_self (l : List (String × J)) (h : nodupKeysB l = true) :
    odFromPairs l = l := by
  unfold odFromPairs
  rw [odFoldl_append l [] h (fun kv _ => rfl)]
  simp

theorem parseV_lbrace (f : Nat) (rest : List Char) :
    parseV (f + 1) ('{' :: rest) =
      (match skipWS rest with
       | [] => none
       | d :: rest2 =>
         if d = '}' then some (J.obj [], rest2)
         else
           match parseMembers f (d :: rest2) with
           | none => none
           | some (kvs, r) => some (J.obj (odFromPairs kvs), r)) := rfl

theorem parseV_lbrack (f : Nat) (rest : List Char) :
    parseV (f + 1) ('[' :: rest) =
      (match skipWS rest with
       | [] => none
       | d :: rest2 =>
         if d = ']' then some (J.arr [], rest2)
         else
           match parseItems f (d :: rest2) with
           | none => none
           | some (xs, r) => some (J.arr xs, r)) := rfl

theorem parseV_quote (f : Nat) (rest : List Char) :
    parseV (f + 1) ('"' :: rest) =
      (match parseStringBody f rest with
       | none => none
       | some (s, r) => some (J.str (String.mk s), r)) := rfl

theorem parseV_dash (f : Nat) (rest : List Char) :
    parseV (f + 1) ('-' :: rest) =
      (match takeDigits rest with
       | ([], _) => none
       | (d :: ds, r) => some (J.num (-(digitsVal (d :: ds) : Int)), r)) := rfl

theorem parseV_digit (f : Nat) (c : Char) (rest : List Char) (h : c.isDigit = true) :
    parseV (f + 1) (c :: rest) =
      (match takeDigits (c :: rest) with
       | (ds, r) => some (J.num ((digitsVal ds : Nat) : Int), r)) := by
  have h1 : c ≠ '{' := digit_ne h (by decide)
  have h2 : c ≠ '[' := digit_ne h (by decide)
  have h3 : c ≠ '"' := digit_ne h (by decide)
  have h4 : c ≠ 'n' := digit_ne h (by decide)
  have h5 : c ≠ 't' := digit_ne h (by decide)
  have h6 : c ≠ 'f' := digit_ne h (by decide)
  have h7 : c ≠ '-' := digit_ne h (by decide)
  simp only [parseV]
  rw [if_neg h1, if_neg h2, if_neg h3, if_neg h4, if_neg h5, if_neg h6, if_neg h7, if_pos h]

theorem parseItems_succ (f : Nat) (cs : List Char) :
    parseItems (f + 1) cs =
      (match parseV f cs with
       | none => none
       | some (v, rest) =>
         match skipWS rest with
         | [] => none
         | d :: rest2 =>
           if d = ',' then
             match parseItems f (skipWS rest2) with
             | none => none
             | some (xs, r) => some (v :: xs, r)
           else if d = ']' then some ([v], rest2)
           else none) := rfl

theorem parseMembers_quote (f : Nat) (rest : List Char) :
    parseMembers (f + 1) ('"' :: rest) =
      (match parseStringBody f rest with
       | none => none
       | some (k, rest1) =>
         match skipWS rest1 with
         | [] => none
         | d :: rest2 =>
           if d = ':' then
             match parseV f (skipWS rest2) with
             | none => none
             | some (v, rest3) =>
               match skipWS rest3 with
               | [] => none
               | e :: rest4 =>
                 if e = ',' then
                   match parseMembers f (skipWS rest4) with
                   | none => none
                   | some (kvs, r) => some ((String.mk k, v) :: kvs, r)
                 else if e = '}' then some ([(String.mk k, v)], rest4)
                 else none
           else none) := rfl

theorem encStrChar_length_pos (c : Char) : 1 ≤ (encStrChar c).length := by
  unfold encStrChar
  split_ifs <;> simp

theorem encStr_length_ge (cs : List Char) :
    cs.length ≤ ((cs.map encStrChar).flatten).length := by
  induction cs with
  | nil => simp
  | cons c cs ih =>
    simp only [List.map_cons, List.flatten_cons, List.length_append, List.length_cons]
    have := encStrChar_length_pos c
    omega

theorem encMembers_cons_decomp (k : String) (v : J) (tl : List (String × J)) :
    ∃ t, encMembers ((k, v) :: tl) = encKey k ++ t := by
  cases tl with
  | nil => exact ⟨':' :: encData v, rfl⟩
  | cons m ms => exact ⟨':' :: (encData v ++ ',' :: encMembers (m :: ms)), by simp [encMembers]⟩

theorem skipWS_encList_cons_append (y : J) (ys : List J) (r : List Char) :
    skipWS (encList (y :: ys) ++ r) = encList (y :: ys) ++ r := by
  obtain ⟨t, ht⟩ := encList_cons_decomp y ys
  rw [ht, List.append_assoc, skipWS_encData_append, ← List.append_assoc]

theorem skipWS_encMembers_cons_append (k : String) (v : J) (tl : List (String × J))
    (r : List Char) :
    skipWS (encMembers ((k, v) :: tl) ++ r) = encMembers ((k, v) :: tl) ++ r := by
  obtain ⟨t, ht⟩ := encMembers_cons_decomp k v tl
  rw [ht]
  have h : encKey k ++ t ++ r = '"' :: ((k.data.map encStrChar).flatten ++ ['"'] ++ t ++ r) := by
    simp [encKey, List.append_assoc]
  rw [h, skipWS_cons_of_not_ws _ (by decide)]

theorem parseEnc : ∀ f : Nat,
    (∀ v rest, wfJ v = true → (encData v).length ≤ f → headNotDigit rest →
      parseV f (encData v ++ rest) = some (v, rest)) ∧
    (∀ x xs rest, wfList (x :: xs) = true → (encList (x :: xs)).length + 1 ≤ f →
      parseItems f (encList (x :: xs) ++ ']' :: rest) = some (x :: xs, rest)) ∧
    (∀ k v kvs rest, wfMembers ((k, v) :: kvs) = true →
      (encMembers ((k, v) :: kvs)).length + 1 ≤ f →
      parseMembers f (encMembers ((k, v) :: kvs) ++ '}' :: rest) = some ((k, v) :: kvs, rest)) := by
  intro f
  induction f with
  | zero =>
    refine ⟨?_, ?_, ?_⟩
    · intro v rest _ hlen _
      have := encData_length_pos v
      omega
    · intro x xs rest _ hlen
      omega
    · intro k v kvs rest _ hlen
      omega
  | succ f ih =>
    obtain ⟨ihA, ihB, ihC⟩ := ih
    refine ⟨?_, ?_, ?_⟩
    -- values
    · intro v rest hwf hlen hnd
      cases v with
      | null => rfl
      | bool b => cases b <;> rfl
      | num i =>
        show parseV (f + 1) (intChars i ++ rest) = some (J.num i, rest)
        unfold intChars
        by_cases hi : i < 0
        · rw [if_pos hi, List.cons_append, parseV_dash,
            takeDigits_append (natChars i.natAbs) rest (natChars_all_digit _) hnd]
          obtain ⟨c, cs, hc, _⟩ := natChars_head_digit i.natAbs
          rw [hc]
          show some (J.num (-(digitsVal (c :: cs) : Int)), rest) = some (J.num i, rest)
          rw [← hc, digitsVal_natChars]
          have he : (-(i.natAbs : Int)) = i := by omega
          rw [he]
        · rw [if_neg hi]
          obtain ⟨c, cs, hc, hd⟩ := natChars_head_digit i.toNat
          rw [hc, List.cons_append, parseV_digit f c _ hd,
            show c :: (cs ++ rest) = (c :: cs) ++ rest from rfl, ← hc,
            takeDigits_append _ _ (natChars_all_digit _) hnd]
          show some (J.num ((digitsVal (natChars i.toNat) : Nat) : Int), rest) = some (J.num i, rest)
          rw [digitsVal_natChars]
          have he : ((i.toNat : Nat) : Int) = i := Int.toNat_of_nonneg (by omega)
          rw [he]
      | str s =>
        show parseV (f + 1) (encKey s ++ rest) = some (J.str s, rest)
        have hr : encKey s ++ rest =
            '"' :: ((s.data.map encStrChar).flatten ++ '"' :: rest) := by
          simp [encKey, List.append_assoc]
        have hflen : s.data.length < f := by
          have h1 : (encData (J.str s)).length =
              ((s.data.map encStrChar).flatten).length + 2 := by
            simp [encData, encKey]
          have h2 := encStr_length_ge s.data
          omega
        rw [hr, parseV_quote, parseStringBody_enc s.data f rest hflen]
      | arr xs =>
        cases xs with
        | nil => rfl
        | cons x xs =>
          have hwf' : wfList (x :: xs) = true := hwf
          have hlen' : (encList (x :: xs)).length + 1 ≤ f := by
            have e : (encData (J.arr (x :: xs))).length = (encList (x :: xs)).length + 2 := by
              simp [encData]
            omega
          obtain ⟨c, cs, hc, hw, hne1, _⟩ := encData_head x
          obtain ⟨t, ht⟩ := encList_cons_decomp x xs
          have hr : encData (J.arr (x :: xs)) ++ rest =
              '[' :: (encList (x :: xs) ++ ']' :: rest) := by
            simp [encData, List.append_assoc]
          have hE : encList (x :: xs) ++ ']' :: rest = c :: (cs ++ (t ++ ']' :: rest)) := by
            rw [ht, hc]
            simp [List.append_assoc]
          rw [hr, parseV_lbrack, hE, skipWS_cons_of_not_ws _ hw]
          show (if c = ']' then some (J.arr [], cs ++ (t ++ ']' :: rest))
                else match parseItems f (c :: (cs ++ (t ++ ']' :: rest))) with
                     | none => none
                     | some (xs', r) => some (J.arr xs', r)) = some (J.arr (x :: xs), rest)
          rw [if_neg hne1, ← hE, ihB x xs rest hwf' hlen']
      | obj kvs =>
        cases kvs with
        | nil => rfl
        | cons kv tail =>
          obtain ⟨k, v⟩ := kv
          have hwfb : nodupKeysB ((k, v) :: tail) = true ∧ wfMembers ((k, v) :: tail) = true := by
            have h : (nodupKeysB ((k, v) :: tail) && wfMembers ((k, v) :: tail)) = true := hwf
            exact Bool.and_eq_true_iff.mp h
          have hlen' : (encMembers ((k, v) :: tail)).length + 1 ≤ f := by
            have e : (encData (J.obj ((k, v) :: tail))).length =
                (encMembers ((k, v) :: tail)).length + 2 := by
              simp [encData]
            omega
          obtain ⟨t, ht⟩ := encMembers_cons_decomp k v tail
          have hr : encData (J.obj ((k, v) :: tail)) ++ rest =
              '{' :: (encMembers ((k, v) :: tail) ++ '}' :: rest) := by
            simp [encData, List.append_assoc]
          have hE : encMembers ((k, v) :: tail) ++ '}' :: rest =
              '"' :: (((k.data.map encStrChar).flatten ++ ['"']) ++ (t ++ '}' :: rest)) := by
            rw [ht]
            simp [encKey, List.append_assoc]
          rw [hr, parseV_lbrace, hE, skipWS_cons_of_not_ws _ (by decide)]
          show (if ('"' : Char) = '}' then
                  some (J.obj [], ((k.data.map encStrChar).flatten ++ ['"']) ++ (t ++ '}' :: rest))
                else match parseMembers f
                       ('"' :: (((k.data.map encStrChar).flatten ++ ['"']) ++ (t ++ '}' :: rest))) with
                     | none => none
                     | some (kvs', r) => some (J.obj (odFromPairs kvs'), r)) =
            some (J.obj ((k, v) :: tail), rest)
          rw [if_neg (by decide), ← hE, ihC k v tail rest hwfb.2 hlen']
          show some (J.obj (odFromPairs ((k, v) :: tail)), rest) = _
          rw [odFromPairs_eq_self _ hwfb.1]
    -- array items
    · intro x xs rest hwf hlen
      have hwfp : wfJ x = true ∧ wfList xs = true := by
        have h : (wfJ x && wfList xs) = true := hwf
        exact Bool.and_eq_true_iff.mp h
      cases xs with
      | nil =>
        have hflen : (encData x).length ≤ f := by
          have e : encList [x] = encData x := rfl
          rw [e] at hlen
          omega
        rw [parseItems_succ, show encList [x] = encData x from rfl,
          ihA x (']' :: rest) hwfp.1 hflen (by rw [headNotDigit_cons]; decide)]
        rfl
      | cons y ys =>
        have e : (encList (x :: y :: ys)).length =
            (encData x).length + 1 + (encList (y :: ys)).length := by
          simp [encList]
          omega
        have hex := encData_length_pos x
        have hey : 1 ≤ (encList (y :: ys)).length := by
          obtain ⟨t, ht⟩ := encList_cons_decomp y ys
          have := encData_length_pos y
          rw [ht]
          simp
          omega
        have hflen : (encData x).length ≤ f := by omega
        have htlen : (encList (y :: ys)).length + 1 ≤ f := by omega
        have hr : encList (x :: y :: ys) ++ ']' :: rest =
            encData x ++ (',' :: (encList (y :: ys) ++ ']' :: rest)) := by
          show (encData x ++ ',' :: encList (y :: ys)) ++ ']' :: rest = _
          simp [List.append_assoc]
        rw [parseItems_succ, hr,
          ihA x _ hwfp.1 hflen (by rw [headNotDigit_cons]; decide)]
        show (match skipWS (',' :: (encList (y :: ys) ++ ']' :: rest)) with
              | [] => none
              | d :: rest2 =>
                if d = ',' then
                  match parseItems f (skipWS rest2) with
                  | none => none
                  | some (xs', r) => some (x :: xs', r)
                else if d = ']' then some ([x], rest2)
                else none) = some (x :: y :: ys, rest)
        rw [skipWS_cons_of_not_ws _ (by decide)]
        show (match parseItems f (skipWS (encList (y :: ys) ++ ']' :: rest)) with
              | none => none
              | some (xs', r) => some (x :: xs', r)) = some (x :: y :: ys, rest)
        rw [skipWS_encList_cons_append, ihB y ys rest hwfp.2 htlen]
    -- object members
    · intro k v kvs rest hwf hlen
      have hwfp : wfJ v = true ∧ wfMembers kvs = true := by
        have h : (wfJ v && wfMembers kvs) = true := hwf
        exact Bool.and_eq_true_iff.mp h
      have hk2 : (encKey k).length = ((k.data.map encStrChar).flatten).length + 2 := by
        simp [encKey]
      have hkge := encStr_length_ge k.data
      cases kvs with
      | nil =>
        have e : (encMembers [(k, v)]).length = (encKey k).length + 1 + (encData v).length := by
          simp [encMembers]
          omega
        have hkf : k.data.length < f := by
          have := encData_length_pos v
          omega
        have hvf : (encData v).length ≤ f := by omega
        have hr : encMembers [(k, v)] ++ '}' :: rest =
            '"' :: ((k.data.map encStrChar).flatten ++ '"' :: (':' :: (encData v ++ '}' :: rest))) := by
          show (encKey k ++ ':' :: encData v) ++ '}' :: rest = _
          simp [encKey, List.append_assoc]
        rw [hr, parseMembers_quote, parseStringBody_enc k.data f _ hkf]
        show (match skipWS (':' :: (encData v ++ '}' :: rest)) with
              | [] => none
              | d :: rest2 =>
                if d = ':' then
                  match parseV f (skipWS rest2) with
                  | none => none
                  | some (v', rest3) =>
                    match skipWS rest3 with
                    | [] => none
                    | e :: rest4 =>
                      if e = ',' then
                        match parseMembers f (skipWS rest4) with
                        | none => none
                        | some (kvs', r) => some ((String.mk k.data, v') :: kvs', r)
                      else if e = '}' then some ([(String.mk k.data, v')], rest4)
                      else none
                else none) = some ([(k, v)], rest)
        rw [skipWS_cons_of_not_ws _ (by decide)]
        show (match parseV f (skipWS (encData v ++ '}' :: rest)) with
              | none => none
              | some (v', rest3) =>
                match skipWS rest3 with
                | [] => none
                | e :: rest4 =>
                  if e = ',' then
                    match parseMembers f (skipWS rest4) with
                    | none => none
                    | some (kvs', r) => some ((String.mk k.data, v') :: kvs', r)
                  else if e = '}' then some ([(String.mk k.data, v')], rest4)
                  else none) = some ([(k, v)], rest)
        rw [skipWS_encData_append,
          ihA v ('}' :: rest) hwfp.1 hvf (by rw [headNotDigit_cons]; decide)]
        rfl
      | cons m ms =>
        obtain ⟨mk, mv⟩ := m
        have e : (encMembers ((k, v) :: (mk, mv) :: ms)).length =
            (encKey k).length + 1 + (encData v).length + 1 +
              (encMembers ((mk, mv) :: ms)).length := by
          simp [encMembers]
          omega
        have hemge : 1 ≤ (encMembers ((mk, mv) :: ms)).length := by
          obtain ⟨t, ht⟩ := encMembers_cons_decomp mk mv ms
          have hkk : (encKey mk).length = ((mk.data.map encStrChar).flatten).length + 2 := by
            simp [encKey]
          rw [ht, List.length_append]
          omega
        have hkf : k.data.length < f := by
          have := encData_length_pos v
          omega
        have hvf : (encData v).length ≤ f := by omega
        have hmf : (encMembers ((mk, mv) :: ms)).length + 1 ≤ f := by
          have := encData_length_pos v
          omega
        have hr : encMembers ((k, v) :: (mk, mv) :: ms) ++ '}' :: rest =
            '"' :: ((k.data.map encStrChar).flatten ++ '"' ::
              (':' :: (encData v ++ ',' :: (encMembers ((mk, mv) :: ms) ++ '}' :: rest)))) := by
          simp [encMembers, encKey, List.append_assoc]
        rw [hr, parseMembers_quote, parseStringBody_enc k.data f _ hkf]
        show (match skipWS (':' :: (encData v ++ ',' :: (encMembers ((mk, mv) :: ms) ++ '}' :: rest))) with
              | [] => none
              | d :: rest2 =>
                if d = ':' then
                  match parseV f (skipWS rest2) with
                  | none => none
                  | some (v', rest3) =>
                    match skipWS rest3 with
                    | [] => none
                    | e :: rest4 =>
                      if e = ',' then
                        match parseMembers f (skipWS rest4) with
                        | none => none
                        | some (kvs', r) => some ((String.mk k.data, v') :: kvs', r)
                      else if e = '}' then some ([(String.mk k.data, v')], rest4)
                      else none
                else none) = some ((k, v) :: (mk, mv) :: ms, rest)
        rw [skipWS_cons_of_not_ws _ (by decide)]
        show (match parseV f (skipWS (encData v ++ ',' :: (encMembers ((mk, mv) :: ms) ++ '}' :: rest))) with
              | none => none
              | some (v', rest3) =>
                match skipWS rest3 with
                | [] => none
                | e :: rest4 =>
                  if e = ',' then
                    match parseMembers f (skipWS rest4) with
                    | none => none
                    | some (kvs', r) => some ((String.mk k.data, v') :: kvs', r)
                  else if e = '}' then some ([(String.mk k.data, v')], rest4)
                  else none) = some ((k, v) :: (mk, mv) :: ms, rest)
        rw [skipWS_encData_append,
          ihA v _ hwfp.1 hvf (by rw [headNotDigit_cons]; decide)]
        show (match skipWS (',' :: (encMembers ((mk, mv) :: ms) ++ '}' :: rest)) with
              | [] => none
              | e :: rest4 =>
                if e = ',' then
                  match parseMembers f (skipWS rest4) with
                  | none => none
                  | some (kvs', r) => some ((String.mk k.data, v) :: kvs', r)
                else if e = '}' then some ([(String.mk k.data, v)], rest4)
                else none) = some ((k, v) :: (mk, mv) :: ms, rest)
        rw [skipWS_cons_of_not_ws _ (by decide)]
        show (match parseMembers f (skipWS (encMembers ((mk, mv) :: ms) ++ '}' :: rest)) with
              | none => none
              | some (kvs', r) => some ((String.mk k.data, v) :: kvs', r)) =
          some ((k, v) :: (mk, mv) :: ms, rest)
        rw [skipWS_encMembers_cons_append, ihC mk mv ms rest hwfp.2 hmf]

theorem rawDecode_enc (v : J) (rest : List Char) (hwf : wfJ v = true)
    (hnd : headNotDigit rest) : rawDecode (encData v ++ rest) = some (v, rest) := by
  unfold rawDecode
  have hlen : (encData v).length ≤ (encData v ++ rest).length + 1 := by
    rw [List.length_append]
    omega
  exact (parseEnc ((encData v ++ rest).length + 1)).1 v rest hwf hlen hnd

theorem decodeGo_frame : ∀ (docs : List J) (fuel : Nat), docs.length ≤ fuel →
    docs.all wfJ = true →
    decodeOutputDocsGo fuel (jqFrame docs) = .ok docs := by
  intro docs
  induction docs with
  | nil => intro fuel _ _; cases fuel <;> rfl
  | cons v docs ih =>
    intro fuel hlen hwf
    simp only [List.length_cons] at hlen
    cases fuel with
    | zero => omega
    | succ f =>
      simp only [List.all_cons, Bool.and_eq_true] at hwf
      obtain ⟨c, cs, hc, _, _, _⟩ := encData_head v
      have hE : jqFrame (v :: docs) = c :: (cs ++ '\n' :: jqFrame docs) := by
        show encData v ++ '\n' :: jqFrame docs = _
        rw [hc, List.cons_append]
      rw [hE]
      show (match rawDecode (c :: (cs ++ '\n' :: jqFrame docs)) with
            | none => (Except.error [] : Except (List J) (List J))
            | some (v', rest) =>
              match decodeOutputDocsGo f (rest.drop 1) with
              | .ok vs => .ok (v' :: vs)
              | .error vs => .error (v' :: vs)) = Except.ok (v :: docs)
      rw [show c :: (cs ++ '\n' :: jqFrame docs) = encData v ++ '\n' :: jqFrame docs from by
            rw [hc, List.cons_append],
          rawDecode_enc v _ hwf.1 (by rw [headNotDigit_cons]; decide)]
      show (match decodeOutputDocsGo f (jqFrame docs) with
            | Except.ok vs => Except.ok (v :: vs)
            | Except.error vs => Except.error (v :: vs)) = Except.ok (v :: docs)
      rw [ih f (by omega) hwf.2]

theorem jqFrame_length_ge (docs : List J) : docs.length ≤ (jqFrame docs).length := by
  induction docs with
  | nil => simp [jqFrame]
  | cons v docs ih =>
    show docs.length + 1 ≤ (encData v ++ '\n' :: jqFrame docs).length
    rw [List.length_append, List.length_cons]
    have := encData_length_pos v
    omega

theorem decode_output_docs_frame (docs : List J) (h : docs.all wfJ = true) :
    decode_output_docs (String.mk (jqFrame docs)) = .ok docs := by
  unfold decode_output_docs
  exact decodeGo_frame docs _ (jqFrame_length_ge docs) h

theorem fsSet_self (fs : FileSystem) (n v : String) : fsSet fs n v n = v := by
  simp [fsSet]

theorem fsSet_fsSet (fs : FileSystem) (n a b : String) :
    fsSet (fsSet fs n a) n b = fsSet fs n b := by
  funext m
  by_cases h : m = n <;> simp [fsSet, h]

theorem fsSet_same (fs : FileSystem) (n : String) : fsSet fs n (fs n) = fs := by
  funext m
  by_cases h : m = n <;> simp [fsSet, h]

theorem dumpAll_opened : ∀ (docs : List (Option String)) (fs : FileSystem)
    (d : DeferredOutputStream), d.fhOpen = true →
    (dumpAllDeferred fs d docs).1 =
      fsSet fs d.name (fs d.name ++ strJoin (writtenPrefix docs)) := by
  intro docs
  induction docs with
  | nil =>
    intro fs d _
    show fs = _
    rw [show strJoin (writtenPrefix []) = "" from rfl, strAppend_empty, fsSet_same]
  | cons o rest ih =>
    intro fs d hd
    cases o with
    | none =>
      show fs = _
      rw [show strJoin (writtenPrefix (none :: rest)) = "" from rfl, strAppend_empty, fsSet_same]
    | some t =>
      show (dumpAllDeferred (dosWrite fs d t).1 (dosWrite fs d t).2 rest).1 = _
      rw [show dosWrite fs d t = (fsSet fs d.name (fs d.name ++ t), d) from by
            simp [dosWrite, hd]]
      show (dumpAllDeferred (fsSet fs d.name (fs d.name ++ t)) d rest).1 = _
      rw [ih _ d hd, fsSet_fsSet, fsSet_self,
        show writtenPrefix (some t :: rest) = t :: writtenPrefix rest from rfl,
        strJoin_cons, String.append_assoc]

theorem dumpAll_unopened (docs : List (Option String)) (fs : FileSystem) (n m : String) :
    (dumpAllDeferred fs ⟨n, m, false⟩ docs).1 =
      if writtenPrefix docs = [] then fs else fsSet fs n (strJoin (writtenPrefix docs)) := by
  cases docs with
  | nil => rfl
  | cons o rest =>
    cases o with
    | none => rfl
    | some t =>
      show (dumpAllDeferred (dosWrite fs ⟨n, m, false⟩ t).1 (dosWrite fs ⟨n, m, false⟩ t).2 rest).1 = _
      rw [show dosWrite fs ⟨n, m, false⟩ t = (fsSet fs n t, ⟨n, m, true⟩) from rfl]
      show (dumpAllDeferred (fsSet fs n t) ⟨n, m, true⟩ rest).1 = _
      rw [dumpAll_opened rest _ _ rfl]
      show fsSet (fsSet fs n t) n (fsSet fs n t n ++ strJoin (writtenPrefix rest)) = _
      rw [fsSet_fsSet, fsSet_self,
        show writtenPrefix (some t :: rest) = t :: writtenPrefix rest from rfl, strJoin_cons]
      rw [if_neg (by simp)]

theorem dumpAll_no_write (docs : List (Option String)) (fs : FileSystem) (n m : String)
    (h : writtenPrefix docs = []) :
    (dumpAllDeferred fs ⟨n, m, false⟩ docs).1 = fs ∧
    (dumpAllDeferred fs ⟨n, m, false⟩ docs).2.1.fhOpen = false := by
  cases docs with
  | nil => exact ⟨rfl, rfl⟩
  | cons o rest =>
    cases o with
    | none => exact ⟨rfl, rfl⟩
    | some t => simp [writtenPrefix] at h

theorem singleton_stdin_iff (names : List String) :
    (names.length = 1 ∧ names.head? = some "<stdin>") ↔ names = ["<stdin>"] := by
  cases names with
  | nil => simp
  | cons a l =>
    cases l with
    | nil => simp
    | cons b rest =>
      simp only [List.length_cons, List.head?_cons, List.cons.injEq]
      constructor
      · intro h
        omega
      · intro h
        exact absurd h.2 (by simp)

/-! # Claims -/

/-- C1 counterexample: the claim says decode_output_docs yields exactly N
values in order for N JSON values concatenated with ARBITRARY whitespace
INCLUDING NO whitespace. With no whitespace between the two values of
the output text composed of two empty arrays, the decoder yields the
first value and then raises JSONDecodeError (the pos + 1 skip lands
inside the second value); with two spaces between two number values it
also raises (raw_decode does not skip leading whitespace and only one
character is skipped after a value). -/
theorem yq_C1_counterexample :
    ("[][]".data = encData (J.arr []) ++ encData (J.arr [])) ∧
    decode_output_docs "[][]" = .error [J.arr []] ∧
    decode_output_docs "[][]" ≠ .ok [J.arr [], J.arr []] ∧
    ("1  2".data = encData (J.num 1) ++ ' ' :: ' ' :: encData (J.num 2)) ∧
    decode_output_docs "1  2" = .error [J.num 1] := by
  refine ⟨rfl, rfl, ?_, rfl, rfl⟩
  intro h
  rw [show decode_output_docs "[][]" = Except.error [J.arr []] from rfl] at h
  exact Except.noConfusion h

/-- C1 amended: for every list of (well-formed, duplicate-free-keyed)
document values, when each value is followed by exactly one newline -
the framing jq actually emits - decode_output_docs yields exactly those
values, in order. The original claim holds only with exactly one
whitespace character after each value, not with arbitrary or no
whitespace. -/
theorem yq_C1_theorem (docs : List J) (h : docs.all wfJ = true) :
    decode_output_docs (String.mk (jqFrame docs)) = .ok docs :=
  decode_output_docs_frame docs h

/-- C1 witness: a concrete three-document newline-framed output. -/
theorem yq_C1_witness :
    ([J.obj [("a", J.num 1)], J.arr [J.str "x"], J.num (-5)].all wfJ = true) ∧
    decode_output_docs
        (String.mk (jqFrame [J.obj [("a", J.num 1)], J.arr [J.str "x"], J.num (-5)])) =
      .ok [J.obj [("a", J.num 1)], J.arr [J.str "x"], J.num (-5)] :=
  ⟨rfl, yq_C1_theorem _ rfl⟩

/-- C2 counterexample: in in-place mode with an input file holding orig,
a three-document output stream whose second document fails to decode
leaves the file holding the first document text, not its original
content: DeferredOutputStream opened (and truncated) the file at the
first write, before the stream was complete. -/
theorem yq_C2_counterexample :
    ((dumpAllDeferred (fun _ => "orig") (inPlaceOutputStream "f.yml")
        [some "a: 1\n", none, some "c: 3\n"]).1 "f.yml" = "a: 1\n") ∧
    ((dumpAllDeferred (fun _ => "orig") (inPlaceOutputStream "f.yml")
        [some "a: 1\n", none, some "c: 3\n"]).2.2 = false) ∧
    ("a: 1\n" : String) ≠ "orig" :=
  ⟨rfl, rfl, by decide⟩

/-- C2 amended: the original file is untouched (not even opened) exactly
when the failure happens before the first document text is written; once
any document has been written, the on-disk content is the concatenation
of the document texts produced before the failure point - a mid-stream
failure therefore leaves the file partially overwritten, not unchanged.
Files other than the output file are never touched. -/
theorem yq_C2_theorem (fs : FileSystem) (inputName : String) (docs : List (Option String)) :
    (writtenPrefix docs = [] →
      (dumpAllDeferred fs (inPlaceOutputStream inputName) docs).1 = fs ∧
      (dumpAllDeferred fs (inPlaceOutputStream inputName) docs).2.1.fhOpen = false) ∧
    ((dumpAllDeferred fs (inPlaceOutputStream inputName) docs).1 =
      if writtenPrefix docs = [] then fs
      else fsSet fs inputName (strJoin (writtenPrefix docs))) ∧
    (∀ other, other ≠ inputName →
      (dumpAllDeferred fs (inPlaceOutputStream inputName) docs).1 other = fs other) := by
  refine ⟨fun h => dumpAll_no_write docs fs inputName "w" h, ?_, ?_⟩
  · exact dumpAll_unopened docs fs inputName "w"
  · intro other hother
    show (dumpAllDeferred fs ⟨inputName, "w", false⟩ docs).1 other = fs other
    rw [dumpAll_unopened docs fs inputName "w"]
    split
    · rfl
    · simp [fsSet, hother]

/-- C2 witness: failing before any write leaves the filesystem alone and
the stream unopened; a successful single write leaves other files alone. -/
theorem yq_C2_witness :
    writtenPrefix [(none : Option String)] = [] ∧
    ((dumpAllDeferred (fun _ => "orig") (inPlaceOutputStream "f.yml") [none]).1 =
        (fun _ => "orig") ∧
      (dumpAllDeferred (fun _ => "orig") (inPlaceOutputStream "f.yml") [none]).2.1.fhOpen = false) ∧
    ("g.yml" : String) ≠ "f.yml" ∧
    (dumpAllDeferred (fun _ => "orig") (inPlaceOutputStream "f.yml") [some "x: 2\n"]).1 "g.yml" =
      (fun _ => ("orig" : String)) "g.yml" :=
  ⟨rfl, (yq_C2_theorem (fun _ => "orig") "f.yml" [none]).1 rfl, by decide,
   (yq_C2_theorem (fun _ => "orig") "f.yml" [some "x: 2\n"]).2.2 "g.yml" (by decide)⟩

/-- C3: with jq absent (Popen would raise FileNotFoundError), the run
does NOT fail through the exit function with the spawn message: the
Popen argument list at src line 196 reads the unbound name
input_streams_with_fifo_names, so a NameError propagates out of yq
uncaught before any spawn is attempted - exit_func is never called, the
handler at lines 200-202 is dead code. The intended message (second
conjunct) does contain the OS error description and the PATH hint, and
no output is written and no transcoding is attempted (fields of the
outcome record), so the rest of the claim matches the intent. -/
theorem yq_C3_theorem :
    (yqRun (.error ⟨"FileNotFoundError", "No such file or directory"⟩)
        [(⟨"a.yml", false⟩, "a.yml.tmp_w1.json", false)] "yq" true
      = ⟨some (.nameError "input_streams_with_fifo_names"), [], false, false, [], false⟩) ∧
    (spawnErrorMsg "yq" "FileNotFoundError" "No such file or directory" =
      "yq: Error starting jq: FileNotFoundError: No such file or directory. " ++
        "Is jq installed and available on PATH?") :=
  ⟨rfl, rfl⟩

/-- C4 counterexample: a non-object document bound for TOML aborts with
a message that does not mention any wrapping-root option (no root
substring at all), while the XML message does; the claim that both the
XML-like and TOML-like errors advise a wrapping-root option is false for
TOML. -/
theorem yq_C4_counterexample :
    tomlOutputDoc "yq" (J.arr [J.str "a", J.str "b"]) = .exited (tomlNonObjectMsg "yq") ∧
    listInfixB "root".data (tomlNonObjectMsg "yq").data = false ∧
    listInfixB "root".data (xmlNonObjectMsg "yq").data = true := by
  refine ⟨rfl, by decide, by decide⟩

/-- C4 amended: for a non-object top-level document, the XML branch
without a wrapping root aborts with a message ending in the advice
sentence about --xml-root, and the TOML branch aborts with its
non-object message (which gives no such advice - there is no
wrapping-root option for TOML); with --xml-root supplied the XML
encoding succeeds and produces a single root element of that name. -/
theorem yq_C4_theorem (pn : String) (dtd : Bool) (doc : J) :
    (isObjJ doc = false →
      xmlOutputDoc pn none dtd doc = .exited (xmlNonObjectMsg pn) ∧
      (∃ pre, xmlNonObjectMsg pn = pre ++ xmlRootAdvice) ∧
      tomlOutputDoc pn doc = .exited (tomlNonObjectMsg pn)) ∧
    (∀ root, ∃ body,
      xmlOutputDoc pn (some root) dtd doc =
        .wrote ("<" ++ root ++ ">" ++ body ++ "</" ++ root ++ ">" ++ "\n")) := by
  constructor
  · intro hobj
    refine ⟨by simp [xmlOutputDoc, hobj], ?_, by simp [tomlOutputDoc, hobj]⟩
    refine ⟨pn ++ ": Error converting JSON to XML: cannot represent non-object types at top level. ",
      ?_⟩
    unfold xmlNonObjectMsg xmlRootAdvice
    rw [String.append_assoc, String.append_assoc]
    exact congrArg (fun s => pn ++ s) (by decide)
  · intro root
    refine ⟨xmlRenderValue doc, ?_⟩
    simp [xmlOutputDoc, xmltodictUnparse, xmlRenderMembers, strAppend_empty]

/-- C4 witness: the non-object document made of a two-string array, with
and without a wrapping root named res. -/
theorem yq_C4_witness :
    isObjJ (J.arr [J.str "a", J.str "b"]) = false ∧
    (xmlOutputDoc "yq" none false (J.arr [J.str "a", J.str "b"]) =
        .exited (xmlNonObjectMsg "yq") ∧
      (∃ pre, xmlNonObjectMsg "yq" = pre ++ xmlRootAdvice) ∧
      tomlOutputDoc "yq" (J.arr [J.str "a", J.str "b"]) = .exited (tomlNonObjectMsg "yq")) ∧
    (∃ body, xmlOutputDoc "yq" (some "res") false (J.arr [J.str "a", J.str "b"]) =
      .wrote ("<" ++ "res" ++ ">" ++ body ++ "</" ++ "res" ++ ">" ++ "\n")) :=
  ⟨rfl, (yq_C4_theorem ("yq") false (J.arr [J.str "a", J.str "b"])).1 rfl,
   (yq_C4_theorem ("yq") false (J.arr [J.str "a", J.str "b"])).2 "res"⟩

/-- C5: key order is insertion order end-to-end. The json decoder of src
line 218 (object_pairs_hook=OrderedDict) returns the keys of a decoded
object in textual order, and the yaml dumper (spec-modelled: the dumper
module is not under src/) emits them in stored order, so decoding a
serialized object and re-encoding reproduces the original key order. -/
theorem yq_C5_theorem (kvs : List (String × J)) (h1 : nodupKeysB kvs = true)
    (h2 : wfMembers kvs = true) :
    rawDecode (encData (J.obj kvs)) = some (J.obj kvs, []) ∧
    yamlDumpKeyOrder (J.obj kvs) = kvs.map Prod.fst := by
  constructor
  · have h : rawDecode (encData (J.obj kvs) ++ []) = some (J.obj kvs, []) := by
      refine rawDecode_enc _ [] ?_ trivial
      show (nodupKeysB kvs && wfMembers kvs) = true
      rw [h1, h2]
      rfl
    simpa using h
  · rfl

/-- C5 witness: the two-key document of the spec (b before a) decodes to
the pairs in textual order and the dumper emits b before a. -/
theorem yq_C5_witness :
    nodupKeysB [("b", J.num 1), ("a", J.num 2)] = true ∧
    wfMembers [("b", J.num 1), ("a", J.num 2)] = true ∧
    (rawDecode (encData (J.obj [("b", J.num 1), ("a", J.num 2)])) =
        some (J.obj [("b", J.num 1), ("a", J.num 2)], []) ∧
      yamlDumpKeyOrder (J.obj [("b", J.num 1), ("a", J.num 2)]) = ["b", "a"]) :=
  ⟨rfl, rfl, yq_C5_theorem [("b", J.num 1), ("a", J.num 2)] rfl rfl⟩

/-- C6: the orchestrator never reaches the close-wait-propagate epilogue
(src lines 256-261). Every run dies at the Popen argument list with an
uncaught NameError (first conjunct, input_streams_with_fifo_names); even
with that name repaired, stream_input_docs raises NameError for any
nonempty input, so the except clause hands exit_func an Error running jq
message instead of the exit status, with no wait and no stream close
(second conjunct); with converting output the branch that would follow
never calls jq.wait() (third conjunct). The exit status 0 of a
successful jq process is never propagated (fourth conjunct). -/
theorem yq_C6_theorem :
    (yqRun (.ok 0) [(⟨"a.yml", false⟩, "a.yml.tmp_w1.json", false)] "yq" false
      = ⟨some (.nameError "input_streams_with_fifo_names"), [], false, false, [], false⟩) ∧
    (yqPostSpawn "yq" [(⟨"a.yml", false⟩, some "a.yml.tmp_w1.json")] "yaml" false 0
      = ⟨none, [.msg (runErrorMsg "yq" (.nameError "input_fifo_name"))], false, false, [], false⟩) ∧
    ((yqPostSpawn "yq" [(⟨"a.yml", false⟩, some "a.yml.tmp_w1.json")] "yaml" true 0).waitedForProcess
      = false) ∧
    (yqPostSpawn "yq" [(⟨"a.yml", false⟩, some "a.yml.tmp_w1.json")] "yaml" false 0).exitCalls
      ≠ [.status 0] :=
  ⟨rfl, rfl, rfl, by decide⟩

/-- C7 counterexample: an in-place request on Python 3 with yaml output
and two standard-input streams (jq - -) is accepted by the gate even
though no real file argument (a non-stdin stream) was supplied: the gate
only rejects the exact case of a single stdin stream. -/
theorem yq_C7_counterexample :
    inPlaceGate "yq" ⟨false, "yaml", ["<stdin>", "<stdin>"]⟩ = none ∧
    (∀ n ∈ (["<stdin>", "<stdin>"] : List String), n = "<stdin>") :=
  ⟨rfl, by decide⟩

/-- C7 amended: the in-place request is accepted exactly when the
interpreter is not Python 2, the output format is yaml or
annotated_yaml, and the input-stream list is not exactly one stream
named with the stdin marker. The real-file condition of the claim is
enforced only in that single-stdin shape; lists of two or more streams
pass even when all are standard input. -/
theorem yq_C7_theorem (pn : String) (c : InPlaceConfig) :
    inPlaceGate pn c = none ↔
      (c.usingPython2 = false ∧
       (c.outputFormat = "yaml" ∨ c.outputFormat = "annotated_yaml") ∧
       c.inputStreamNames ≠ ["<stdin>"]) := by
  obtain ⟨p2, fmt, names⟩ := c
  simp only [inPlaceGate]
  by_cases h1 : p2 = true
  · rw [if_pos h1]
    simp [h1]
  · rw [if_neg h1]
    simp only [Bool.not_eq_true] at h1
    by_cases h2 : fmt = "yaml" ∨ fmt = "annotated_yaml"
    · rw [if_neg (not_not_intro h2)]
      by_cases h3 : names = ["<stdin>"]
      · rw [if_pos ((singleton_stdin_iff names).mpr h3)]
        exact ⟨fun h => Option.noConfusion h, fun h => absurd h3 h.2.2⟩
      · rw [if_neg (fun hc => h3 ((singleton_stdin_iff names).mp hc))]
        exact ⟨fun _ => ⟨h1, h2, h3⟩, fun _ => rfl⟩
    · rw [if_pos h2]
      simp [h2]

/-- C8: the serialized documents of one input are NOT delivered
newline-separated: stream_input_docs as written raises NameError on its
first iteration (the undefined input_fifo_name), delivering nothing; and
with the name slip repaired to the evident intent, the loop writes one
json.dump directly after another, so two number documents arrive as 12
with no separator at all, not as a newline-joined 1, 2. -/
theorem yq_C8_theorem :
    stream_input_docs [(⟨"a.yml", false⟩, some "a.yml.tmp_w1.json")] "yaml"
      = .error (.nameError "input_fifo_name") ∧
    streamInputDocsNameFixed [[J.num 1, J.num 2]] = ["12"] ∧
    ("12" : String) ≠ "1\n2" :=
  ⟨rfl, rfl, by decide⟩

/-- C9: a fifo name collision does NOT lead to a logged warning and a
skipped input: the except FileExistsError handler evaluates
sys.stderr.print, an attribute that Python file objects do not have
(write is the real method, second conjunct), so mktempfifo raises
AttributeError; the comprehension that builds the fifo list (before the
try block of yq) propagates it and the whole run aborts - the remaining
inputs are never processed and no warning is written. -/
theorem yq_C9_theorem :
    mktempfifo ⟨"b.yml", false⟩ "b.yml.tmp_w2.json" true = .error (.attributeError "print") ∧
    getattrFileObject "write" = .ok () ∧
    fifoSetupPhase
        [(⟨"a.yml", false⟩, "a.yml.tmp_w1.json", false),
         (⟨"b.yml", false⟩, "b.yml.tmp_w2.json", true),
         (⟨"c.yml", false⟩, "c.yml.tmp_w3.json", false)]
      = .error (.attributeError "print") :=
  ⟨rfl, rfl, rfl⟩

/-- C10: JSONDateTimeEncoder.default returns the isoformat string for
every datetime, date and time value (with the zero padding of isoformat,
checked on concrete values), and hands every other object to the base
encoder default, which raises TypeError naming the class of the
object. -/
theorem yq_C10_theorem :
    (∀ y mo d h mi s, JSONDateTimeEncoder_default (.pyDatetime y mo d h mi s) =
      .ok (datetimeIsoformat y mo d h mi s)) ∧
    (∀ y m d, JSONDateTimeEncoder_default (.pyDate y m d) = .ok (dateIsoformat y m d)) ∧
    (∀ h mi s, JSONDateTimeEncoder_default (.pyTime h mi s) = .ok (timeIsoformat h mi s)) ∧
    (∀ c, JSONDateTimeEncoder_default (.pyOther c) = JSONEncoder_default (.pyOther c) ∧
      JSONEncoder_default (.pyOther c) =
        .error ("Object of type " ++ c ++ " is not JSON serializable")) ∧
    JSONDateTimeEncoder_default (.pyDate 2026 3 5) = .ok "2026-03-05" ∧
    JSONDateTimeEncoder_default (.pyDatetime 2026 3 5 7 8 9) = .ok "2026-03-05T07:08:09" :=
  ⟨fun _ _ _ _ _ _ => rfl, fun _ _ _ => rfl, fun _ _ _ => rfl,
   fun _ => ⟨rfl, rfl⟩, rfl, rfl⟩
